import Mathlib

/-!
Verification of the ado-summary-agent context-assembly and summarization
pipeline.  The definitions below are a shallow embedding of the Python
sources (src/context_builder.py, src/agent.py, src/ado_client.py):
strings are modelled as Lean `String` / `List Char` (Python `len` counts
code points, as does `List Char` length), dictionaries as association
lists, and code that may raise as `Except`-valued functions.  Scanning
functions that Python implements with `re` are written with an explicit
fuel argument equal to the input length so that they reduce by `decide`;
the fuel is always sufficient because every step consumes at least one
character.
-/

/-- Characters matched by Python"s `\s` (and stripped by `str.strip()`)
for `str` patterns: ASCII whitespace, the C1 separators, and the Unicode
space characters. -/
def pyIsSpace (c : Char) : Bool :=
  c.toNat = 0x09 ∨ c.toNat = 0x0a ∨ c.toNat = 0x0b ∨ c.toNat = 0x0c ∨
  c.toNat = 0x0d ∨ c.toNat = 0x1c ∨ c.toNat = 0x1d ∨ c.toNat = 0x1e ∨
  c.toNat = 0x1f ∨ c.toNat = 0x20 ∨ c.toNat = 0x85 ∨ c.toNat = 0xa0 ∨
  c.toNat = 0x1680 ∨ (0x2000 ≤ c.toNat ∧ c.toNat ≤ 0x200a) ∨
  c.toNat = 0x2028 ∨ c.toNat = 0x2029 ∨ c.toNat = 0x202f ∨
  c.toNat = 0x205f ∨ c.toNat = 0x3000

/-- Python `re.sub(r"\s+", " ", s)`: every maximal whitespace run becomes a
single ASCII space. -/
def collapseWs : List Char → List Char
  | [] => []
  | [c] => if pyIsSpace c then [' '] else [c]
  | a :: b :: rest =>
    if pyIsSpace a then
      if pyIsSpace b then collapseWs (b :: rest)
      else ' ' :: collapseWs (b :: rest)
    else a :: collapseWs (b :: rest)

/-- Remove trailing whitespace (the right half of Python `str.strip()`). -/
def dropTrailingWs : List Char → List Char
  | [] => []
  | c :: rest =>
    match dropTrailingWs rest with
    | [] => if pyIsSpace c then [] else [c]
    | r => c :: r

/-- Python `str.strip()` on a character list. -/
def pyStrip (l : List Char) : List Char :=
  dropTrailingWs (l.dropWhile pyIsSpace)

/-- Python `str.strip()` on a `String`. -/
def pyStripStr (s : String) : String :=
  String.mk (pyStrip s.data)

/-- Drop characters up to and including the first `">"`
(helper for the tag-removal scan). -/
def dropThroughGt : List Char → List Char
  | [] => []
  | c :: rest => if c = '>' then rest else dropThroughGt rest

/-- Python `re.sub(r"<[^>]+>", "", s)` with explicit fuel: at a `"<"` whose next
character is not `">"` and which is followed by some `">"`, the leftmost
match up to that first `">"` is removed; otherwise the character is kept.
Fuel `≥` input length suffices since each step consumes a character. -/
def removeTagsF : Nat → List Char → List Char
  | 0, l => l
  | _, [] => []
  | fuel + 1, c :: rest =>
    if c = '<' then
      match rest with
      | [] => ['<']
      | r0 :: _ =>
        if r0 = '>' then '<' :: removeTagsF fuel rest
        else if rest.contains '>' then removeTagsF fuel (dropThroughGt rest)
        else '<' :: rest
    else c :: removeTagsF fuel rest

/-- Python `re.sub(r"<[^>]+>", "", s)`. -/
def removeTags (l : List Char) : List Char := removeTagsF l.length l

/-- Python `str.replace(pat, repl)` (left-to-right, non-overlapping),
with fuel; the patterns used are all non-empty. -/
def replaceAllF : Nat → List Char → List Char → List Char → List Char
  | 0, _, _, l => l
  | _, _, _, [] => []
  | fuel + 1, pat, repl, c :: rest =>
    if pat.isPrefixOf (c :: rest) ∧ pat ≠ [] then
      repl ++ replaceAllF fuel pat repl ((c :: rest).drop pat.length)
    else c :: replaceAllF fuel pat repl rest

/-- Python `str.replace(pat, repl)`. -/
def pyReplace (l pat repl : List Char) : List Char :=
  replaceAllF l.length pat repl l

/-- Python `str.rfind(c)`: highest index holding `c`, `-1` if absent. -/
def rfindChar : List Char → Char → Int
  | [], _ => -1
  | x :: xs, c =>
    let r := rfindChar xs c
    if 0 ≤ r then r + 1 else if x = c then 0 else -1

/-- Python slicing `s[:n]` on a `String`. -/
def strTake (s : String) (n : Nat) : String := String.mk (s.data.take n)

/-- Python `s.endswith(suffix)`. -/
def endsWithStr (s suffix : String) : Bool := suffix.data.isSuffixOf s.data

/-- Python `"\n".join(lines)`. -/
def joinNl : List String → String
  | [] => ""
  | [s] => s
  | s :: rest => s ++ "\n" ++ joinNl rest

/-- Python `"\n\n".join(sections)` used by the context assembler. -/
def joinSections : List String → String
  | [] => ""
  | [s] => s
  | s :: rest => s ++ "\n\n" ++ joinSections rest

/-- Python `l[-n:]`: the final `min n (length l)` elements. -/
def pyTail (n : Nat) (l : List α) : List α := l.drop (l.length - n)

/-- A single field delta inside one revision
(`{"oldValue": ..., "newValue": ...}`). -/
structure FieldChange where
  oldValue : String
  newValue : String
deriving DecidableEq

/-- One entry of the work-item update history returned by the `updates`
endpoint.  `fields` is the revision"s field-delta dictionary; the
`System.ChangedBy` delta carries an identity object, so its
`newValue.displayName` component is modelled as the separate
`changedByDisplayName` (absent key `→ none`). -/
structure HistEvent where
  fields : List (String × FieldChange)
  changedByDisplayName : Option String
deriving DecidableEq

/-- A work item as consumed by the agent: the `id` key (absent `→ none`),
the `fields` dictionary restricted to its string-rendered values, the
`System.AssignedTo` identity `displayName` (the code reads
`fields.get("System.AssignedTo", {}).get("displayName", ...)`), and the
`_relationship` marker set on items fetched through a link. -/
structure WorkItem where
  id : Option Nat
  fields : List (String × String)
  assignedToDisplayName : Option String
  relationship : Option String
deriving DecidableEq

/-- Python `work_item.get("fields", {}).get(key, dflt)`. -/
def getField (w : WorkItem) (key dflt : String) : String :=
  match w.fields.lookup key with
  | some v => v
  | none => dflt

/-- Python `work_item.get("id", "Unknown")` rendered by an f-string. -/
def idOrUnknown (w : WorkItem) : String :=
  match w.id with
  | some n => toString n
  | none => "Unknown"

/-- Python `work_item.get("id")` rendered by an f-string (Python prints `None`). -/
def idStr (w : WorkItem) : String :=
  match w.id with
  | some n => toString n
  | none => "None"

/-- ContextBuilder._clean_html, lines 145-163: sentence-boundary-aware
truncation of the cleaned text.  The source writes the limit as the
local `max_length = 15000`; it is taken as a parameter here, as in the
spec `truncate(text, limit)` contract.  The float test
`sentence_end > max_length * 0.8` is rendered exactly as the integer
inequality `4 * limit < 5 * sentence_end`, which agrees with the float
comparison for every integer index and limit. -/
def smartTruncate (clean_text : String) (max_length : Nat) : String :=
  if clean_text.length ≤ max_length then clean_text
  else
    let truncated := strTake clean_text max_length
    let last_period := rfindChar truncated.data '.'
    let last_exclamation := rfindChar truncated.data '!'
    let last_question := rfindChar truncated.data '?'
    let sentence_end := max (max last_period last_exclamation) last_question
    if 4 * (max_length : Int) < 5 * sentence_end then
      strTake clean_text (sentence_end.toNat + 1)
    else
      let last_space := rfindChar truncated.data ' '
      if 0 < last_space then strTake clean_text last_space.toNat ++ "..."
      else truncated ++ "..."

/-- ContextBuilder._clean_html, lines 132-163: strip tags, decode the
four entities (in source order `&nbsp;` `&amp;` `&lt;` `&gt;`), collapse
whitespace, trim, then truncate at the per-field limit 15000. -/
def cleanHtml (html_content : String) : String :=
  if html_content = "" then ""
  else
    let t1 := removeTags html_content.data
    let t2 := pyReplace t1 "&nbsp;".data " ".data
    let t3 := pyReplace t2 "&amp;".data "&".data
    let t4 := pyReplace t3 "&lt;".data "<".data
    let t5 := pyReplace t4 "&gt;".data ">".data
    let clean_text := String.mk (pyStrip (collapseWs t5))
    smartTruncate clean_text 15000

/-- ContextBuilder._build_primary_context. -/
def buildPrimaryContext (work_item : WorkItem) : String :=
  "PRIMARY WORK ITEM:\nID: " ++ idOrUnknown work_item ++
  "\nTitle: " ++ getField work_item "System.Title" "" ++
  "\nType: " ++ getField work_item "System.WorkItemType" "" ++
  "\nState: " ++ getField work_item "System.State" "" ++
  "\nPriority: " ++ getField work_item "Microsoft.VSTS.Common.Priority" "Not Set" ++
  "\nArea: " ++ getField work_item "System.AreaPath" "" ++
  "\n\nDESCRIPTION:\n" ++ cleanHtml (getField work_item "System.Description" "No description") ++
  "\n\nACCEPTANCE CRITERIA:\n" ++ getField work_item "Microsoft.VSTS.Common.AcceptanceCriteria" "Not specified"

/-- ContextBuilder._build_business_context (empty strings are falsy in
the `x if x else d` substitutions). -/
def buildBusinessContext (w : WorkItem) : String :=
  let business_value := getField w "Microsoft.VSTS.Common.BusinessValue" ""
  let tags := getField w "System.Tags" ""
  "BUSINESS CONTEXT:\nBusiness Value: " ++
  (if business_value = "" then "Not quantified" else business_value) ++
  "\nTags: " ++ (if tags = "" then "None" else tags) ++
  "\nIteration: " ++ getField w "System.IterationPath" "Not assigned" ++
  "\nAssigned To: " ++
  (match w.assignedToDisplayName with
   | some n => n
   | none => "Unassigned")

/-- ContextBuilder._build_technical_context. -/
def buildTechnicalContext (w : WorkItem) : String :=
  "TECHNICAL DETAILS:\nStory Points: " ++
  getField w "Microsoft.VSTS.Scheduling.StoryPoints" "Not estimated" ++
  "\nEffort: " ++ getField w "Microsoft.VSTS.Scheduling.Effort" "Not estimated" ++
  "\nReason: " ++ getField w "System.Reason" "Standard"

/-- Insertion-ordered grouping used by `_build_relationship_context`
(Python dictionaries preserve first-insertion order of keys). -/
def addToGroups (groups : List (String × List String)) (k v : String) :
    List (String × List String) :=
  match groups with
  | [] => [(k, [v])]
  | (k2, vs) :: rest =>
    if k2 = k then (k2, vs ++ [v]) :: rest else (k2, vs) :: addToGroups rest k v

/-- The `f"{id} - {title} ({state})"` line of the relationship section. -/
def linkedSummaryLine (item : WorkItem) : String :=
  idStr item ++ " - " ++ getField item "System.Title" "Untitled" ++ " (" ++
  getField item "System.State" "Unknown" ++ ")"

/-- Group the linked items by `_relationship` (default `"Related"`). -/
def groupByRelationship (linked_items : List WorkItem) : List (String × List String) :=
  linked_items.foldl
    (fun groups item =>
      addToGroups groups
        (match item.relationship with
         | some r => r
         | none => "Related")
        (linkedSummaryLine item))
    []

/-- Render one relationship group: header line, up to 8 entries, then an
overflow line. -/
def renderGroup (g : String × List String) : List String :=
  (g.1 ++ ":") ::
  (g.2.take 8).map (fun item => "  - " ++ item) ++
  (if 8 < g.2.length then ["  - ... and " ++ toString (g.2.length - 8) ++ " more"] else [])

/-- ContextBuilder._build_relationship_context. -/
def buildRelationshipContext (linked_items : List WorkItem) : String :=
  if linked_items.isEmpty then "RELATED ITEMS: None"
  else
    joinNl ("RELATED ITEMS:" :: (groupByRelationship linked_items).flatMap renderGroup)

/-- Python `event.get("fields", {}).get("System.State", ...)` style lookup. -/
def histField (e : HistEvent) (key : String) : Option FieldChange :=
  e.fields.lookup key

/-- ASCII single quote, kept out of string literals. -/
def quoteCh : String := String.singleton (Char.ofNat 39)

/-- The timeline line for an event that carries a `System.State` delta:
`f"{changed_date}: {changed_by} changed state from "{old}" to "{new}""`,
where `changed_date` is the `System.ChangedDate` delta `newValue`
(default `""`) and `changed_by` the `System.ChangedBy` new identity
`displayName` (default `"Unknown"`). -/
def stateLineOf (e : HistEvent) : Option String :=
  match histField e "System.State" with
  | none => none
  | some ch =>
    let changed_date :=
      match histField e "System.ChangedDate" with
      | some d => d.newValue
      | none => ""
    let changed_by :=
      match e.changedByDisplayName with
      | some n => n
      | none => "Unknown"
    some (changed_date ++ ": " ++ changed_by ++ " changed state from " ++
      quoteCh ++ ch.oldValue ++ quoteCh ++ " to " ++ quoteCh ++ ch.newValue ++ quoteCh)

/-- The lines rendered by the timeline section: the last 15 history
entries filtered to those with a `System.State` delta, of which the
final 5 are shown. -/
def timelineLines (history : List HistEvent) : List String :=
  pyTail 5 ((pyTail 15 history).filterMap stateLineOf)

/-- ContextBuilder._build_timeline_context. -/
def buildTimelineContext (history : List HistEvent) : String :=
  if history.isEmpty then "TIMELINE: No history available"
  else
    let key_events := (pyTail 15 history).filterMap stateLineOf
    if key_events.isEmpty then "TIMELINE: No significant state changes"
    else "TIMELINE:\n" ++ joinNl (pyTail 5 key_events)

/-- The ordered section list assembled by
`build_comprehensive_context` (relationship and timeline sections are
appended only when their inputs are non-empty). -/
def sectionsList (primary_item : WorkItem) (linked_items : List WorkItem)
    (history : List HistEvent) : List String :=
  [buildPrimaryContext primary_item,
   buildBusinessContext primary_item,
   buildTechnicalContext primary_item] ++
  (if linked_items.isEmpty then [] else [buildRelationshipContext linked_items]) ++
  (if history.isEmpty then [] else [buildTimelineContext history])

/-- The configured global maximum context size
(`self.max_context_length = 120000`). -/
def maxContextLength : Nat := 120000

/-- ContextBuilder.build_comprehensive_context: join the sections with a
blank line (`full_context = "\n\n".join(sections)`) and hard-truncate
the joined text to the global maximum. -/
def buildComprehensiveContext (primary_item : WorkItem)
    (linked_items : List WorkItem) (history : List HistEvent) : String :=
  if maxContextLength < (joinSections (sectionsList primary_item linked_items history)).length
  then strTake (joinSections (sectionsList primary_item linked_items history)) maxContextLength
  else joinSections (sectionsList primary_item linked_items history)

/-- A primary item whose title alone exceeds the global context budget
(titles are interpolated into the primary section uncleaned). -/
def bigTitle : String := String.mk (List.replicate 130000 (Char.ofNat 97))

/-- Concrete oversized work item used to exercise the hard truncation. -/
def bigItem : WorkItem :=
  { id := some 1, fields := [("System.Title", bigTitle)],
    assignedToDisplayName := none, relationship := none }

/-- Agent.run, lines 123-130: the markers whose presence at the very end
of a summary indicates a mid-section cutoff (each carries its emoji
prefix). -/
def truncationMarkers : List String :=
  ["⚠️ **RISKS & DEPENDENCIES**",
   "⚡ **EXECUTION PLAN**",
   "💰 **EXPECTED IMPACT/ROI**",
   "🚀 **FUTURE STATE**",
   "📊 **CURRENT STATE**",
   "🎯 **PROBLEM STATEMENT**"]

/-- The fixed notice appended to a summary detected as truncated. -/
def truncationNotice : String :=
  "[Summary truncated due to length limitations. Please review the full work item for complete details.]"

/-- Agent.run, lines 122-133: flag a summary as truncated when its
stripped text ends with one of the markers or with a bare colon, and in
that case append the fixed notice to the stripped text; otherwise leave
the summary unchanged.  Returns `(is_truncated, summary)`. -/
def detectTruncation (summary : String) : Bool × String :=
  let st := pyStripStr summary
  let is_truncated :=
    truncationMarkers.any (fun m => endsWithStr st m) || endsWithStr st ":"
  if is_truncated then (true, st ++ "\n" ++ truncationNotice) else (false, summary)

/-- The sentence-ending punctuation searched by the smart truncation. -/
def sentencePunct : List Char := ['.', '!', '?']

/-- Index `p` is the rightmost position of `l` holding a character from `cs`. -/
def RightmostAt (l : List Char) (cs : List Char) (p : Nat) : Prop :=
  (∃ c ∈ cs, l[p]? = some c) ∧
  ∀ j : Nat, j < l.length → p < j → ∀ c ∈ cs, l[j]? ≠ some c

/-- No position of `l` holds a character from `cs`. -/
def NoneAt (l : List Char) (cs : List Char) : Prop :=
  ∀ j : Nat, j < l.length → ∀ c ∈ cs, l[j]? ≠ some c

instance (l cs : List Char) (p : Nat) : Decidable (RightmostAt l cs p) := by
  unfold RightmostAt; infer_instance

instance (l cs : List Char) : Decidable (NoneAt l cs) := by
  unfold NoneAt; infer_instance

/-- The word-boundary fallback of the smart truncation: cut at the
rightmost space of the limited prefix when its index is positive,
otherwise keep the whole prefix; append the ellipsis either way. -/
def wordFallback (t : String) (limit : Nat) : String :=
  let last_space := rfindChar (strTake t limit).data ' '
  if 0 < last_space then strTake t last_space.toNat ++ "..."
  else strTake t limit ++ "..."

/-- True when no two adjacent characters are both whitespace. -/
def noTwoSpaces : List Char → Bool
  | a :: b :: rest => (!(pyIsSpace a && pyIsSpace b)) && noTwoSpaces (b :: rest)
  | _ => true

/-- Python `title = primary_item.get("fields", {}).get("System.Title", "N/A")`
(Agent.run, line 71). -/
def titleOf (w : WorkItem) : String := getField w "System.Title" "N/A"

/-- The `"="*100` rule of the basic fallback block. -/
def eqRope : String := String.mk (List.replicate 100 '=')

/-- The `"-"*100` rule of the error block. -/
def dashRope : String := String.mk (List.replicate 100 (Char.ofNat 45))

/-- The failure glyph whose absence in a block counts it as a success
(`"❌" not in s`). -/
def failureMarker : String := "❌"

/-- Agent.run, lines 142-147: the minimally-formatted fallback block
appended when structured formatting raises; it carries the raw summary. -/
def basicBlock (w : WorkItem) (summary : String) : String :=
  "\n" ++ eqRope ++ "\n" ++ "Work Item " ++ idStr w ++ ": " ++ titleOf w ++ "\n" ++
  eqRope ++ "\n\n" ++ summary ++ "\n"

/-- Agent.run, lines 150-156: the visible error block also appended when
structured formatting raises. -/
def errorBlock (w : WorkItem) (e : String) : String :=
  "\n" ++ dashRope ++ "\n" ++ "Work Item " ++ idStr w ++ ": " ++ titleOf w ++ "\n" ++
  dashRope ++ "\n\n" ++ "❌ **ERROR FORMATTING WORK ITEM SUMMARY**\n\n" ++
  "Formatting failed: " ++ e ++ "\n"

/-- Agent.run, lines 117-157: after the truncation check the summary is
formatted; the formatter call may raise (modelled by the `Except`-valued
`fmt`; instantiating `fmt` with `Except.ok ∘ formatter` recovers the
non-raising runs).  On success one block is appended; on a formatting
error BOTH the basic fallback block and the error block are appended. -/
def processSummary (fmt : String → Except String String) (w : WorkItem)
    (summary : String) : List String :=
  match fmt (detectTruncation summary).2 with
  | Except.ok formatted => [formatted]
  | Except.error e =>
    [basicBlock w (detectTruncation summary).2, errorBlock w e]

/-- Constant `MAX_RETRIES = 5` (Agent.run, line 87). -/
def maxRetries : Nat := 5

/-- Agent.run, lines 93-107: the retry loop over one item generation,
driven by the per-attempt oracle `gen` (attempt numbers start at 1).
Returns `(summary?, last_exception?, number_of_generation_calls)`; the
first component is `none` exactly when every allowed attempt failed. -/
def tryGen (gen : Nat → Except String String) :
    Nat → Nat → Option String → Option String × Option String × Nat
  | 0, _, lastErr => (none, lastErr, 0)
  | remaining + 1, attempt, lastErr =>
    match gen attempt with
    | Except.ok s => (some s, lastErr, 1)
    | Except.error e =>
      let r := tryGen gen remaining (attempt + 1) (some e)
      (r.1, r.2.1, r.2.2 + 1)

/-- Agent.run, lines 110-115: the fatal message raised when all retries
are exhausted (`str(last_exception) if last_exception else "Unknown
error"`). -/
def fatalMsg (w : WorkItem) (lastErr : Option String) : String :=
  "AI summarization failed after " ++ toString maxRetries ++
  " attempts for work item " ++ idStr w ++ ": " ++
  (match lastErr with
   | some e => e
   | none => "Unknown error")

/-- The context handed to the summarizer for one primary item, with the
linked items grouped per primary id and the fetched history supplied by
the oracles `lb` / `ho` (they model `linked_by_primary.get(item_id, [])`
and `get_work_item_history(item_id)`). -/
def ctxOf (lb : Option Nat → List WorkItem) (ho : Option Nat → List HistEvent)
    (w : WorkItem) : String :=
  buildComprehensiveContext w (lb w.id) (ho w.id)

/-- Agent.run, lines 69-157: the per-item loop.  `gen ctx attempt` models
`self.summarizer.summarize(full_context)` at the given attempt number.
Returns the collected blocks (or the fatal error that aborted the run)
together with the total number of generation calls issued. -/
def runBlocks (gen : String → Nat → Except String String)
    (fmt : String → Except String String)
    (lb : Option Nat → List WorkItem) (ho : Option Nat → List HistEvent) :
    List WorkItem → Except String (List String) × Nat
  | [] => (Except.ok [], 0)
  | it :: rest =>
    let r := tryGen (gen (ctxOf lb ho it)) maxRetries 1 none
    match r.1 with
    | none => (Except.error (fatalMsg it r.2.1), r.2.2)
    | some summary =>
      match runBlocks gen fmt lb ho rest with
      | (Except.ok bs, m) => (Except.ok (processSummary fmt it summary ++ bs), r.2.2 + m)
      | (Except.error e, m) => (Except.error e, r.2.2 + m)

/-- A concrete item whose generation always fails. -/
def badItemW : WorkItem :=
  { id := some 7, fields := [], assignedToDisplayName := none, relationship := none }

/-- A generation oracle that fails on every attempt. -/
def genFailW : String → Nat → Except String String := fun _ _ => Except.error "boom"

/-- A formatter oracle that never raises. -/
def fmtOkW : String → Except String String := fun s => Except.ok s

/-- Empty linked-item oracle. -/
def lbW : Option Nat → List WorkItem := fun _ => []

/-- Empty history oracle. -/
def hoW : Option Nat → List HistEvent := fun _ => []

/-- An item used by the formatting-failure scenario. -/
def itemFmtW : WorkItem :=
  { id := some 3, fields := [("System.Title", "T")],
    assignedToDisplayName := none, relationship := none }

/-- A generation oracle that always succeeds with the summary `"sum"`. -/
def genOkW : String → Nat → Except String String := fun _ _ => Except.ok "sum"

/-- A formatter oracle that always raises. -/
def fmtFailW : String → Except String String := fun _ => Except.error "boom"

/-- Python `sub in s` (substring containment) on character lists. -/
def isSubstr (sub : List Char) : List Char → Bool
  | [] => sub.isEmpty
  | c :: rest => sub.isPrefixOf (c :: rest) || isSubstr sub rest

/-- Python `len([s for s in summaries if "❌" not in s])` (Agent.run, line 174);
the membership test is the Python substring test for the one-character
failure glyph. -/
def successCount (summaries : List String) : Nat :=
  (summaries.filter (fun s => !(isSubstr failureMarker.data s.data))).length

/-- Agent.run, lines 170-184: the final report f-string.  The timestamp
and elapsed-minutes interpolations are parameters (`dateStr`,
`minutesStr`); `total = len(primary_items)` and the block list are the
run results. -/
def buildFinalReport (dateStr : String) (total : Nat) (minutesStr : String)
    (summaries : List String) : String :=
  "# ADO Work Items Summary Report\n*Generated on " ++ dateStr ++
  "*\n\n**Items Processed**: " ++ toString total ++ "  \n" ++
  "**Success Rate**: " ++ toString (successCount summaries) ++ "/" ++ toString total ++
  "  \n" ++ "**Total Time**: " ++ minutesStr ++
  " minutes\n\n---\n\n" ++ String.join summaries ++ "\n\n---\n\n*End of Report*\n"

/-- A concrete success block (no failure glyph). -/
def blockOkW : String := "# Work Item 1: Alpha\n\nAll good\n\n---\n"

/-- A concrete failure block (contains the failure glyph). -/
def blockFailW : String :=
  "\nWork Item 2: Beta\n\n❌ **ERROR FORMATTING WORK ITEM SUMMARY**\n"

/-- Agent.fetch_work_items, lines 35-38: the dummy items substituted
when the client returned no items at all. -/
def placeholderItems (ids : List Nat) : List WorkItem :=
  ids.map (fun wid =>
    { id := some wid, fields := [("System.Title", "Work Item " ++ toString wid)],
      assignedToDisplayName := none, relationship := none })

/-- ADOClient.get_work_items, lines 40-46: append the linked items of a
successfully fetched id, skipping ids already seen (`linked_id`"s Python
truthiness also skips a 0 id).  Returns the appended items and the
updated seen-set. -/
def addLinked : List WorkItem → List Nat → List WorkItem × List Nat
  | [], seen => ([], seen)
  | li :: ls, seen =>
    match li.id with
    | some lid =>
      if lid ≠ 0 ∧ ¬ seen.contains lid then
        let r := addLinked ls (lid :: seen)
        (li :: r.1, r.2)
      else addLinked ls seen
    | none => addLinked ls seen

/-- ADOClient.get_work_items, lines 28-49: fetch each requested id via
the oracle `fetch` (`none` models a non-success status, which is only
logged); on success the item is appended, followed by its linked items
(oracle `linkedOf`, modelling `_get_linked_work_items`), de-duplicated
against the id set initialised with all requested ids. -/
def getWorkItemsGo (fetch : Nat → Option WorkItem) (linkedOf : Nat → List WorkItem) :
    List Nat → List Nat → List WorkItem × List Nat
  | [], seen => ([], seen)
  | wid :: rest, seen =>
    match fetch wid with
    | some item =>
      let la := addLinked (linkedOf wid) seen
      let tail := getWorkItemsGo fetch linkedOf rest la.2
      (item :: la.1 ++ tail.1, tail.2)
    | none => getWorkItemsGo fetch linkedOf rest seen

/-- ADOClient.get_work_items. -/
def getWorkItems (fetch : Nat → Option WorkItem) (linkedOf : Nat → List WorkItem)
    (ids : List Nat) : List WorkItem :=
  (getWorkItemsGo fetch linkedOf ids ids).1

/-- Agent.fetch_work_items, lines 30-40: fall back to placeholder items
only when the client returned an empty list. -/
def fetchWorkItems (fetch : Nat → Option WorkItem) (linkedOf : Nat → List WorkItem)
    (ids : List Nat) : List WorkItem :=
  if getWorkItems fetch linkedOf ids = [] then placeholderItems ids
  else getWorkItems fetch linkedOf ids

/-- A fetch oracle for which id 1 succeeds and id 2 fails. -/
def fetchW : Nat → Option WorkItem := fun i =>
  if i = 1 then
    some { id := some 1, fields := [("System.Title", "One")],
           assignedToDisplayName := none, relationship := none }
  else none

/-- Empty linked-items oracle for the client model. -/
def linkedOfW : Nat → List WorkItem := fun _ => []

/-- A concrete history event carrying a state change. -/
def histEvW : HistEvent :=
  { fields := [("System.State", ⟨"New", "Active"⟩),
               ("System.ChangedDate", ⟨"", "2024-01-02"⟩)],
    changedByDisplayName := some "Alice" }

/-- A concrete primary item for the timeline witness. -/
def pW : WorkItem :=
  { id := some 1, fields := [], assignedToDisplayName := none, relationship := none }

/-- Python `s.split("\n")` on a character list. -/
def splitLinesL : List Char → List (List Char)
  | [] => [[]]
  | c :: rest =>
    match splitLinesL rest with
    | [] => [[]]
    | hd :: tl => if c = '\n' then [] :: hd :: tl else (c :: hd) :: tl

/-- Python `summary.split("\n")`. -/
def pySplitLines (s : String) : List String := (splitLinesL s.data).map String.mk

/-- Python `s.startswith(prefix)`. -/
def startsWithStr (s pre : String) : Bool := pre.data.isPrefixOf s.data

/-- Drop trailing characters satisfying `p` (generic right strip). -/
def dropTrailingIf (p : Char → Bool) : List Char → List Char
  | [] => []
  | c :: rest =>
    match dropTrailingIf p rest with
    | [] => if p c then [] else [c]
    | r => c :: r

/-- Python `line.strip("*")`. -/
def stripStars (s : String) : String :=
  String.mk (dropTrailingIf (fun c => c == '*') (s.data.dropWhile (fun c => c == '*')))

/-- Python `s.lower()` (ASCII case folding, which covers the whitelist). -/
def strToLower (s : String) : String := String.mk (s.data.map Char.toLower)

/-- Agent._is_instruction_artifact: the template-leakage substrings. -/
def instructionArtifacts : List String :=
  ["STRICT RULES:", "OUTPUT FORMAT", "RULES:", "Use ONLY",
   "exact field values", "Copy field values", "No assumptions",
   "[exact ID]", "[exact type]", "[exact state]", "[Copy description",
   "based on title and description only"]

/-- Agent._is_instruction_artifact. -/
def isInstructionArtifact (line : String) : Bool :=
  instructionArtifacts.any (fun a => isSubstr a.data line.data)

/-- Agent._is_valid_section: the whitelist of recognized section names. -/
def validSections : List String :=
  ["executive summary", "key details", "description",
   "acceptance criteria", "technical details", "next actions",
   "dependencies", "risks", "dependencies & risks"]

/-- Agent._is_valid_section. -/
def isValidSection (section_name : String) : Bool :=
  validSections.contains (strToLower section_name)

/-- Python `line.startswith("**") and line.endswith("**")`. -/
def isBoldLine (line : String) : Bool :=
  startsWithStr line "**" && endsWithStr line "**"

/-- Python `line.strip("*").strip()`. -/
def sectionNameOf (line : String) : String := pyStripStr (stripStars line)

/-- A line that the formatter promotes to a heading: a bold line whose
stripped name is in the whitelist. -/
def isRecognizedHeader (line : String) : Bool :=
  isBoldLine line && isValidSection (sectionNameOf line)

/-- Drop characters up to and including the first `"]"`. -/
def dropThroughRb : List Char → List Char
  | [] => []
  | c :: rest => if c = ']' then rest else dropThroughRb rest

/-- Python `re.sub(r"\[exact [^\]]+\]", "", value)` with fuel: remove each
leftmost `[exact ...]` span (literal `"[exact "` followed by at least
one non-`"]"` character and a closing `"]"`). -/
def removeExactF : Nat → List Char → List Char
  | 0, l => l
  | _, [] => []
  | fuel + 1, c :: rest =>
    if ("[exact ".data).isPrefixOf (c :: rest) then
      match (c :: rest).drop 7 with
      | [] => c :: removeExactF fuel rest
      | a0 :: after =>
        if a0 = ']' then c :: removeExactF fuel rest
        else if (a0 :: after).contains ']' then
          removeExactF fuel (dropThroughRb (a0 :: after))
        else c :: removeExactF fuel rest
    else c :: removeExactF fuel rest

/-- Python `re.sub(r"\[exact [^\]]+\]", "", value)`. -/
def removeExactMarkers (l : List Char) : List Char := removeExactF l.length l

/-- Words of a line (split on whitespace runs), for the soft wrap. -/
def pyWords : List Char → List (List Char)
  | [] => []
  | c :: rest =>
    let r := pyWords rest
    if pyIsSpace c then r
    else
      match rest with
      | [] => [[c]]
      | d :: _ =>
        if pyIsSpace d then [c] :: r
        else
          match r with
          | [] => [[c]]
          | w :: ws => (c :: w) :: ws

/-- Greedy packing of words into lines of at most `width` characters
(words longer than `width` stay whole, as with
`break_long_words=False`). -/
def packWords (width : Nat) : List String → String → List String
  | [], cur => [cur]
  | w :: ws, cur =>
    if cur.length + 1 + w.length ≤ width then packWords width ws (cur ++ " " ++ w)
    else cur :: packWords width ws w

/-- Python `textwrap.fill(line, width=90, break_long_words=False,
break_on_hyphens=False)`: greedy word wrap at word boundaries. -/
def textwrapFill (s : String) (width : Nat) : String :=
  match (pyWords s.data).map String.mk with
  | [] => ""
  | w :: ws => joinNl (packWords width ws w)

/-- Agent._format_section_content. -/
def formatSectionContent (line : String) (sec : String) : Option String :=
  if startsWithStr line "•" || startsWithStr line "-" then
    let content := pyStripStr (String.mk
      (line.data.dropWhile (fun c => c == '•' || c == '-' || c == ' ')))
    if content = "" then none else some ("- " ++ content)
  else if sec = "key details" then
    if isSubstr ":".data line.data then
      let field := pyStripStr (String.mk (line.data.takeWhile (fun c => !(c == ':'))))
      let value := pyStripStr (String.mk (removeExactMarkers
        (pyStrip ((line.data.dropWhile (fun c => !(c == ':'))).drop 1))))
      if ¬ value = "" ∧ ¬ value = "Not specified" ∧ ¬ value = "Not provided" then
        some ("- **" ++ field ++ "**: " ++ value)
      else some ("- **" ++ field ++ "**: Not specified")
    else none
  else if 90 < line.length then some (textwrapFill line 90) else some line

/-- One iteration of the Agent._clean_summary_content loop; the state is
`(clean_lines, current_section)`. -/
def cleanStep (acc : List String × Option String) (line0 : String) :
    List String × Option String :=
  let line := pyStripStr line0
  if line = "" then acc
  else if isInstructionArtifact line then acc
  else if isBoldLine line then
    let section_name := sectionNameOf line
    if isValidSection section_name then
      let cl := if acc.1 ≠ [] ∧ acc.1.getLast? ≠ some "" then acc.1 ++ [""] else acc.1
      (cl ++ ["## " ++ section_name, ""], some (strToLower section_name))
    else acc
  else
    match acc.2 with
    | some sec =>
      match formatSectionContent line sec with
      | some fl => (acc.1 ++ [fl], acc.2)
      | none => acc
    | none => acc

/-- Agent._clean_summary_content. -/
def cleanSummaryContent (summary : String) : String :=
  joinNl ((pySplitLines summary).foldl cleanStep ([], none)).1

/-- Agent._clean_title: remove `[...]` prefixes with trailing blanks. -/
def removeBracketF : Nat → List Char → List Char
  | 0, l => l
  | _, [] => []
  | fuel + 1, c :: rest =>
    if c = '[' then
      match rest with
      | [] => ['[']
      | r0 :: _ =>
        if r0 = ']' then '[' :: removeBracketF fuel rest
        else if rest.contains ']' then
          removeBracketF fuel ((dropThroughRb rest).dropWhile pyIsSpace)
        else '[' :: rest
    else c :: removeBracketF fuel rest

/-- Agent._clean_title. -/
def cleanTitle (title : String) : String :=
  pyStripStr (String.mk (removeBracketF title.data.length title.data))

/-- Agent._format_summary_for_readability: header, cleaned body,
separator footer. -/
def formatSummaryForReadability (summary : String) (w : WorkItem) : String :=
  "# Work Item " ++ idStr w ++ ": " ++ cleanTitle (titleOf w) ++ "\n\n" ++
  cleanSummaryContent summary ++ "\n\n---\n\n"

theorem strTake_length (s : String) (n : Nat) : (strTake s n).length = min n s.length := by
  show (s.data.take n).length = min n s.data.length
  exact List.length_take ..

/-- C2: for every primary item, linked-item list and history list, the
assembled context never exceeds the configured global maximum of 120000
characters, and whenever the joined sections exceed that budget the
result is the plain character-level prefix of exactly that length (no
sentence-boundary logic at this stage). -/
theorem build_context_bounded (p : WorkItem) (linked : List WorkItem)
    (history : List HistEvent) :
    (buildComprehensiveContext p linked history).length ≤ maxContextLength ∧
    (maxContextLength < (joinSections (sectionsList p linked history)).length →
      buildComprehensiveContext p linked history =
        String.mk ((joinSections (sectionsList p linked history)).data.take maxContextLength) ∧
      (buildComprehensiveContext p linked history).length = maxContextLength) := by
  unfold buildComprehensiveContext
  by_cases h : maxContextLength < (joinSections (sectionsList p linked history)).length
  · rw [if_pos h]
    have h1 : (strTake (joinSections (sectionsList p linked history)) maxContextLength).length
        = maxContextLength := by
      rw [strTake_length]; omega
    exact ⟨le_of_eq h1, fun _ => ⟨rfl, h1⟩⟩
  · rw [if_neg h]
    exact ⟨Nat.le_of_not_lt h, fun hc => absurd hc h⟩

theorem strLength_append (s t : String) : (s ++ t).length = s.length + t.length := by
  cases s with
  | mk a =>
    cases t with
    | mk b =>
      show (a ++ b).length = a.length + b.length
      exact List.length_append a b

theorem big_joined_long :
    maxContextLength < (joinSections (sectionsList bigItem [] [])).length := by
  have h2 : joinSections (sectionsList bigItem [] []) =
      buildPrimaryContext bigItem ++ "\n\n" ++
        (buildBusinessContext bigItem ++ "\n\n" ++ buildTechnicalContext bigItem) := by
    simp [sectionsList, joinSections]
  have h1 : getField bigItem "System.Title" "" = bigTitle := rfl
  have h3 : bigTitle.length = 130000 := by
    show (List.replicate 130000 (Char.ofNat 97)).length = 130000
    rw [List.length_replicate]
  rw [h2]
  rw [strLength_append, strLength_append]
  have h4 : 130000 ≤ (buildPrimaryContext bigItem).length := by
    unfold buildPrimaryContext
    rw [h1]
    repeat rw [strLength_append]
    omega
  show 120000 < _
  omega

/-- Witness for C2: a concrete item whose joined sections exceed the
budget, so the assembled context is hard-truncated to exactly 120000
characters. -/
theorem build_context_bounded_witness :
    maxContextLength < (joinSections (sectionsList bigItem [] [])).length ∧
    (buildComprehensiveContext bigItem [] []).length = maxContextLength :=
  ⟨big_joined_long, ((build_context_bounded bigItem [] []).2 big_joined_long).2⟩

theorem strData_append (s t : String) : (s ++ t).data = s.data ++ t.data := by
  cases s with
  | mk a => cases t with | mk b => rfl

/-- C3 (amended): whenever the *stripped* summary ends with one of the
code emoji-prefixed section markers, or ends with a colon, the result
is flagged truncated and the returned text ends with the fixed notice. -/
theorem truncation_flagging (s : String)
    (h : (∃ m ∈ truncationMarkers, endsWithStr (pyStripStr s) m = true) ∨
      endsWithStr (pyStripStr s) ":" = true) :
    (detectTruncation s).1 = true ∧
    endsWithStr (detectTruncation s).2 truncationNotice = true := by
  have hflag : (truncationMarkers.any (fun m => endsWithStr (pyStripStr s) m) ||
      endsWithStr (pyStripStr s) ":") = true := by
    rcases h with h | h
    · exact Bool.or_eq_true _ _ |>.mpr (Or.inl (List.any_eq_true.2 h))
    · exact Bool.or_eq_true _ _ |>.mpr (Or.inr h)
  unfold detectTruncation
  simp only []
  rw [hflag]
  refine ⟨rfl, ?_⟩
  show (truncationNotice.data.isSuffixOf (pyStripStr s ++ "\n" ++ truncationNotice).data) = true
  rw [List.isSuffixOf_iff_suffix, strData_append]
  exact List.suffix_append _ _

/-- Witness for C3"s amended claim: a summary ending exactly in the
marker as it appears in the code (with its emoji prefix) is flagged and
the notice is appended. -/
theorem truncation_flagging_witness :
    (detectTruncation "⚠️ **RISKS & DEPENDENCIES**").1 = true ∧
    endsWithStr (detectTruncation "⚠️ **RISKS & DEPENDENCIES**").2 truncationNotice = true :=
  truncation_flagging "⚠️ **RISKS & DEPENDENCIES**" (by decide)

/-- Counterexample for C3 as stated: a generated summary ending exactly
in `"**RISKS & DEPENDENCIES**"` (without the emoji prefix the code
requires) is NOT flagged truncated and is returned unchanged. -/
theorem truncation_missed_without_emoji :
    detectTruncation "**RISKS & DEPENDENCIES**" = (false, "**RISKS & DEPENDENCIES**") := by
  decide

theorem rfindChar_spec (l : List Char) (c : Char) :
    (rfindChar l c = -1 ∧ ∀ j : Nat, l[j]? ≠ some c) ∨
    (∃ i : Nat, rfindChar l c = (i : Int) ∧ l[i]? = some c ∧
      ∀ j : Nat, i < j → l[j]? ≠ some c) := by
  induction l with
  | nil => exact Or.inl ⟨rfl, by simp⟩
  | cons x xs ih =>
    rcases ih with ⟨h1, h2⟩ | ⟨i, h1, h2, h3⟩
    · by_cases hx : x = c
      · refine Or.inr ⟨0, ?_, ?_, ?_⟩
        · simp [rfindChar, h1, hx]
        · simp [hx]
        · intro j hj
          match j, hj with
          | j + 1, _ => simpa using h2 j
      · refine Or.inl ⟨?_, ?_⟩
        · simp [rfindChar, h1, hx]
        · intro j
          match j with
          | 0 => simpa using hx
          | j + 1 => simpa using h2 j
    · refine Or.inr ⟨i + 1, ?_, ?_, ?_⟩
      · have h0 : (0 : Int) ≤ (i : Int) := Int.ofNat_nonneg i
        simp [rfindChar, h1, h0]
      · simpa using h2
      · intro j hj
        match j, hj with
        | j + 1, hj => simpa using h3 j (by omega)

theorem rfindChar_eq_rightmost (l : List Char) (cs : List Char) (p : Nat) (c : Char)
    (h : RightmostAt l cs p) (hc : c ∈ cs) (hpc : l[p]? = some c) :
    rfindChar l c = (p : Int) := by
  rcases rfindChar_spec l c with ⟨h1, h2⟩ | ⟨i, h1, h2, h3⟩
  · exact absurd hpc (h2 p)
  · have hip : i = p := by
      by_contra hne
      rcases Nat.lt_or_ge i p with hlt | hge
      · exact absurd hpc (h3 p hlt)
      · have hpi : p < i := lt_of_le_of_ne hge (Ne.symm hne)
        have hilen : i < l.length := (List.getElem?_eq_some.1 h2).1
        exact absurd h2 (h.2 i hilen hpi c hc)
    rw [h1, hip]

theorem rfindChar_le_rightmost (l : List Char) (cs : List Char) (p : Nat) (c : Char)
    (h : RightmostAt l cs p) (hc : c ∈ cs) : rfindChar l c ≤ (p : Int) := by
  rcases rfindChar_spec l c with ⟨h1, _⟩ | ⟨i, h1, h2, h3⟩
  · rw [h1]; omega
  · rw [h1]
    by_contra hgt
    push_neg at hgt
    have hpi : p < i := by exact_mod_cast hgt
    have hilen : i < l.length := (List.getElem?_eq_some.1 h2).1
    exact absurd h2 (h.2 i hilen hpi c hc)

theorem rfindChar_eq_neg_of_none (l : List Char) (cs : List Char) (c : Char)
    (h : NoneAt l cs) (hc : c ∈ cs) : rfindChar l c = -1 := by
  rcases rfindChar_spec l c with ⟨h1, _⟩ | ⟨i, h1, h2, h3⟩
  · exact h1
  · have hilen : i < l.length := (List.getElem?_eq_some.1 h2).1
    exact absurd h2 (h i hilen c hc)

theorem sentenceEnd_eq (l : List Char) (p : Nat) (h : RightmostAt l sentencePunct p) :
    max (max (rfindChar l '.') (rfindChar l '!')) (rfindChar l '?') = (p : Int) := by
  obtain ⟨⟨c, hcmem, hpc⟩, hmax⟩ := h
  have hle1 : rfindChar l '.' ≤ (p : Int) :=
    rfindChar_le_rightmost l sentencePunct p _ ⟨⟨c, hcmem, hpc⟩, hmax⟩ (by simp [sentencePunct])
  have hle2 : rfindChar l '!' ≤ (p : Int) :=
    rfindChar_le_rightmost l sentencePunct p _ ⟨⟨c, hcmem, hpc⟩, hmax⟩ (by simp [sentencePunct])
  have hle3 : rfindChar l '?' ≤ (p : Int) :=
    rfindChar_le_rightmost l sentencePunct p _ ⟨⟨c, hcmem, hpc⟩, hmax⟩ (by simp [sentencePunct])
  have heq : rfindChar l c = (p : Int) :=
    rfindChar_eq_rightmost l sentencePunct p c ⟨⟨c, hcmem, hpc⟩, hmax⟩ hcmem hpc
  have hcases : c = '.' ∨ c = '!' ∨ c = '?' := by
    simpa [sentencePunct] using hcmem
  rcases hcases with hc | hc | hc <;> subst hc <;> omega

theorem sentenceEnd_neg (l : List Char) (h : NoneAt l sentencePunct) :
    max (max (rfindChar l '.') (rfindChar l '!')) (rfindChar l '?') = -1 := by
  have h1 := rfindChar_eq_neg_of_none l sentencePunct '.' h (by simp [sentencePunct])
  have h2 := rfindChar_eq_neg_of_none l sentencePunct '!' h (by simp [sentencePunct])
  have h3 := rfindChar_eq_neg_of_none l sentencePunct '?' h (by simp [sentencePunct])
  omega

theorem smartTruncate_body (t : String) (limit : Nat) (hnle : ¬ t.length ≤ limit) :
    smartTruncate t limit =
      (if 4 * (limit : Int) <
          5 * (max (max (rfindChar (strTake t limit).data '.')
                (rfindChar (strTake t limit).data '!'))
              (rfindChar (strTake t limit).data '?')) then
        strTake t ((max (max (rfindChar (strTake t limit).data '.')
              (rfindChar (strTake t limit).data '!'))
            (rfindChar (strTake t limit).data '?')).toNat + 1)
      else wordFallback t limit) := by
  simp only [smartTruncate, wordFallback]
  rw [if_neg hnle]

/-- C5 (amended): the contract of the sentence-boundary truncation as the
code implements it.  For `len(text) ≤ limit` the text is returned
unchanged.  Otherwise, with `p` the rightmost sentence-ending
punctuation position inside the first `limit` characters: the text is
cut at `p` inclusively only when `p` lies STRICTLY past 80% of `limit`
(`4 * limit < 5 * p`); at or below that boundary (and when no such
punctuation exists) the code falls back to the rightmost space: if its
index is positive the text is cut there (exclusive) with an ellipsis
appended, and if there is no space at a positive index the whole
`limit`-character prefix is kept with the ellipsis appended. -/
theorem truncate_contract (t : String) (limit : Nat) :
    (t.length ≤ limit → smartTruncate t limit = t) ∧
    (limit < t.length →
      (∀ p : Nat, RightmostAt (strTake t limit).data sentencePunct p →
        (4 * limit < 5 * p → smartTruncate t limit = strTake t (p + 1)) ∧
        (5 * p ≤ 4 * limit → smartTruncate t limit = wordFallback t limit)) ∧
      (NoneAt (strTake t limit).data sentencePunct →
        smartTruncate t limit = wordFallback t limit) ∧
      (∀ q : Nat, RightmostAt (strTake t limit).data [' '] q →
        (0 < q → wordFallback t limit = strTake t q ++ "...") ∧
        (q = 0 → wordFallback t limit = strTake t limit ++ "...")) ∧
      (NoneAt (strTake t limit).data [' '] →
        wordFallback t limit = strTake t limit ++ "...")) := by
  constructor
  · intro hle
    unfold smartTruncate
    rw [if_pos hle]
  · intro hlt
    have hnle : ¬ t.length ≤ limit := by omega
    refine ⟨?_, ?_, ?_, ?_⟩
    · intro p hp
      have hse := sentenceEnd_eq (strTake t limit).data p hp
      constructor
      · intro h45
        rw [smartTruncate_body t limit hnle, hse, if_pos (by exact_mod_cast h45)]
        congr 1
      · intro h45
        have hcond : ¬ 4 * (limit : Int) < 5 * (p : Int) := by omega
        rw [smartTruncate_body t limit hnle, hse, if_neg hcond]
    · intro hnone
      have hse := sentenceEnd_neg (strTake t limit).data hnone
      rw [smartTruncate_body t limit hnle, hse, if_neg (by omega)]
    · intro q hq
      have hsp := rfindChar_eq_rightmost (strTake t limit).data [' '] q ' ' hq (by simp)
        (by obtain ⟨⟨c, hc, hcp⟩, -⟩ := hq; simp at hc; subst hc; exact hcp)
      constructor
      · intro hqpos
        unfold wordFallback
        rw [hsp, if_pos (by exact_mod_cast hqpos)]
        congr 1
      · intro hq0
        subst hq0
        unfold wordFallback
        rw [hsp]
        simp
    · intro hnone
      have hsp := rfindChar_eq_neg_of_none (strTake t limit).data [' '] ' ' hnone (by simp)
      unfold wordFallback
      rw [hsp]
      simp

/-- Counterexample for C5 as stated: in `"aaaaaaaa.ab"` with limit 10
the rightmost sentence punctuation of the 10-character prefix sits at
index 8, exactly AT 80% of the limit (`5 * 8 = 4 * 10`).  The claim
("at or past 80% ... cut there inclusively") would give the prefix
`"aaaaaaaa."`; the code strict test rejects the boundary case and
produces `"aaaaaaaa.a..."` instead. -/
theorem truncate_at_80_differs :
    10 < ("aaaaaaaa.ab" : String).length ∧
    RightmostAt (strTake "aaaaaaaa.ab" 10).data sentencePunct 8 ∧
    5 * 8 = 4 * 10 ∧
    smartTruncate "aaaaaaaa.ab" 10 = "aaaaaaaa.a..." ∧
    smartTruncate "aaaaaaaa.ab" 10 ≠ strTake "aaaaaaaa.ab" (8 + 1) := by
  decide

/-- Witness for C5"s amended contract at concrete inputs: a short text
is returned unchanged, and the boundary-case text takes the
word-fallback branch. -/
theorem truncate_contract_witness :
    smartTruncate "hello" 10 = "hello" ∧
    smartTruncate "aaaaaaaa.ab" 10 = wordFallback "aaaaaaaa.ab" 10 :=
  ⟨(truncate_contract "hello" 10).1 (by decide),
   (((truncate_contract "aaaaaaaa.ab" 10).2 (by decide)).1 8 (by decide)).2 (by decide)⟩

theorem mem_collapseWs (l : List Char) (c : Char) :
    c ∈ collapseWs l → c ∈ l ∨ c = ' ' := by
  induction l using collapseWs.induct with
  | case1 => simp [collapseWs]
  | case2 x hx => intro h; simp [collapseWs, hx] at h; simp [h]
  | case3 x hx => intro h; simp [collapseWs, hx] at h; simp [h]
  | case4 a b rest ha hb ih =>
    intro h
    rw [collapseWs, if_pos ha, if_pos hb] at h
    rcases ih h with h2 | h2
    · exact Or.inl (List.mem_cons_of_mem a h2)
    · exact Or.inr h2
  | case5 a b rest ha hb ih =>
    intro h
    rw [collapseWs, if_pos ha, if_neg hb] at h
    rcases List.mem_cons.1 h with h2 | h2
    · exact Or.inr h2
    · rcases ih h2 with h3 | h3
      · exact Or.inl (List.mem_cons_of_mem a h3)
      · exact Or.inr h3
  | case6 a b rest ha ih =>
    intro h
    rw [collapseWs, if_neg ha] at h
    rcases List.mem_cons.1 h with h2 | h2
    · exact Or.inl (by simp [h2])
    · rcases ih h2 with h3 | h3
      · exact Or.inl (List.mem_cons_of_mem a h3)
      · exact Or.inr h3

theorem length_collapseWs (l : List Char) : (collapseWs l).length ≤ l.length := by
  induction l using collapseWs.induct with
  | case1 => simp [collapseWs]
  | case2 x hx => simp [collapseWs, hx]
  | case3 x hx => simp [collapseWs, hx]
  | case4 a b rest ha hb ih =>
    rw [collapseWs, if_pos ha, if_pos hb]
    simp at ih ⊢
    omega
  | case5 a b rest ha hb ih =>
    rw [collapseWs, if_pos ha, if_neg hb]
    simp at ih ⊢
    omega
  | case6 a b rest ha ih =>
    rw [collapseWs, if_neg ha]
    simp at ih ⊢
    omega

theorem allSpace_collapseWs (l : List Char) (c : Char) :
    c ∈ collapseWs l → pyIsSpace c = true → c = ' ' := by
  induction l using collapseWs.induct with
  | case1 => simp [collapseWs]
  | case2 x hx => intro h _; simpa [collapseWs, hx] using h
  | case3 x hx =>
    intro h hs
    simp [collapseWs, hx] at h
    exact absurd (h ▸ hs) hx
  | case4 a b rest ha hb ih =>
    intro h hs
    rw [collapseWs, if_pos ha, if_pos hb] at h
    exact ih h hs
  | case5 a b rest ha hb ih =>
    intro h hs
    rw [collapseWs, if_pos ha, if_neg hb] at h
    rcases List.mem_cons.1 h with h2 | h2
    · exact h2
    · exact ih h2 hs
  | case6 a b rest ha ih =>
    intro h hs
    rw [collapseWs, if_neg ha] at h
    rcases List.mem_cons.1 h with h2 | h2
    · exact absurd (h2 ▸ hs) ha
    · exact ih h2 hs

theorem collapseWs_head? (a : Char) (l : List Char) :
    (collapseWs (a :: l)).head? = some (if pyIsSpace a then ' ' else a) := by
  induction l generalizing a with
  | nil =>
    by_cases ha : pyIsSpace a <;> simp [collapseWs, ha]
  | cons b rest ih =>
    by_cases ha : pyIsSpace a
    · by_cases hb : pyIsSpace b
      · rw [collapseWs, if_pos ha, if_pos hb]
        rw [ih b]
        simp [ha, hb]
      · rw [collapseWs, if_pos ha, if_neg hb]
        simp [ha]
    · rw [collapseWs, if_neg ha]
      simp [ha]

theorem noTwoSpaces_tail (a : Char) (l : List Char) :
    noTwoSpaces (a :: l) = true → noTwoSpaces l = true := by
  cases l with
  | nil => intro; rfl
  | cons b rest =>
    intro h
    rw [noTwoSpaces] at h
    simp at h
    exact h.2

theorem noTwoSpaces_collapseWs (l : List Char) : noTwoSpaces (collapseWs l) = true := by
  induction l using collapseWs.induct with
  | case1 => rfl
  | case2 x hx => simp [collapseWs, hx, noTwoSpaces]
  | case3 x hx => simp [collapseWs, hx, noTwoSpaces]
  | case4 a b rest ha hb ih =>
    rw [collapseWs, if_pos ha, if_pos hb]
    exact ih
  | case5 a b rest ha hb ih =>
    rw [collapseWs, if_pos ha, if_neg hb]
    have hh := collapseWs_head? b rest
    cases hcw : collapseWs (b :: rest) with
    | nil => simp [noTwoSpaces]
    | cons x xs =>
      rw [hcw] at hh ih
      simp [hb] at hh
      subst hh
      rw [noTwoSpaces]
      simp [ih, hb]
  | case6 a b rest ha ih =>
    rw [collapseWs, if_neg ha]
    cases hcw : collapseWs (b :: rest) with
    | nil => simp [noTwoSpaces]
    | cons x xs =>
      rw [noTwoSpaces]
      rw [hcw] at ih
      simp [ih, ha]

theorem collapseWs_fixed (l : List Char) :
    (∀ c ∈ l, pyIsSpace c = true → c = ' ') → noTwoSpaces l = true →
    collapseWs l = l := by
  induction l using collapseWs.induct with
  | case1 => intro _ _; rfl
  | case2 x hx =>
    intro hall _
    have hx' := hall x (by simp) hx
    simp [collapseWs, hx, hx']
  | case3 x hx => intro _ _; simp [collapseWs, hx]
  | case4 a b rest ha hb ih =>
    intro _ h2
    exfalso
    rw [noTwoSpaces] at h2
    simp [ha, hb] at h2
  | case5 a b rest ha hb ih =>
    intro hall h2
    have ha' : a = ' ' := hall a (by simp) ha
    have hrest := ih (fun c hc hs => hall c (List.mem_cons_of_mem a hc) hs)
      (noTwoSpaces_tail a _ h2)
    rw [collapseWs, if_pos ha, if_neg hb, hrest, ha']
  | case6 a b rest ha ih =>
    intro hall h2
    have hrest := ih (fun c hc hs => hall c (List.mem_cons_of_mem a hc) hs)
      (noTwoSpaces_tail a _ h2)
    rw [collapseWs, if_neg ha, hrest]

theorem mem_dropTrailingWs (l : List Char) (c : Char) :
    c ∈ dropTrailingWs l → c ∈ l := by
  induction l using dropTrailingWs.induct with
  | case1 => simp [dropTrailingWs]
  | case2 x rest hdt hx ih =>
    intro h
    rw [dropTrailingWs, hdt] at h
    simp [hx] at h
  | case3 x rest hdt hx ih =>
    intro h
    rw [dropTrailingWs, hdt] at h
    simp [hx] at h
    simp [h]
  | case4 x rest hne ih =>
    intro h
    rw [dropTrailingWs] at h
    cases hdt : dropTrailingWs rest with
    | nil => exact absurd hdt hne
    | cons y ys =>
      rw [hdt] at h
      rcases List.mem_cons.1 h with h2 | h2
      · simp [h2]
      · exact List.mem_cons_of_mem x (ih (hdt ▸ h2))

theorem length_dropTrailingWs (l : List Char) :
    (dropTrailingWs l).length ≤ l.length := by
  induction l using dropTrailingWs.induct with
  | case1 => simp [dropTrailingWs]
  | case2 x rest hdt hx ih => rw [dropTrailingWs, hdt]; simp [hx]
  | case3 x rest hdt hx ih => rw [dropTrailingWs, hdt]; simp [hx]
  | case4 x rest hne ih =>
    rw [dropTrailingWs]
    cases hdt : dropTrailingWs rest with
    | nil => exact absurd hdt hne
    | cons y ys =>
      rw [hdt] at ih
      simpa using ih

theorem getLast?_dropTrailingWs (l : List Char) (x : Char) :
    (dropTrailingWs l).getLast? = some x → pyIsSpace x = false := by
  induction l using dropTrailingWs.induct with
  | case1 => simp [dropTrailingWs]
  | case2 c rest hdt hc ih =>
    intro h
    rw [dropTrailingWs, hdt] at h
    simp [hc] at h
  | case3 c rest hdt hc ih =>
    intro h
    rw [dropTrailingWs, hdt] at h
    simp [hc] at h
    rw [← h]
    exact Bool.not_eq_true _ ▸ hc
  | case4 c rest hne ih =>
    intro h
    rw [dropTrailingWs] at h
    cases hdt : dropTrailingWs rest with
    | nil => exact absurd hdt hne
    | cons y ys =>
      rw [hdt] at h
      rw [List.getLast?_cons_cons] at h
      exact ih (hdt ▸ h)

theorem head_dropTrailingWs (c : Char) (rest : List Char) :
    dropTrailingWs (c :: rest) = [] ∨ ∃ r, dropTrailingWs (c :: rest) = c :: r := by
  rw [dropTrailingWs]
  cases dropTrailingWs rest with
  | nil =>
    by_cases hc : pyIsSpace c
    · simp [hc]
    · simp [hc]
  | cons y ys => exact Or.inr ⟨y :: ys, rfl⟩

theorem noTwoSpaces_dropTrailingWs (l : List Char) :
    noTwoSpaces l = true → noTwoSpaces (dropTrailingWs l) = true := by
  induction l using dropTrailingWs.induct with
  | case1 => intro _; rfl
  | case2 c rest hdt hc ih => intro _; rw [dropTrailingWs, hdt]; simp [hc, noTwoSpaces]
  | case3 c rest hdt hc ih => intro _; rw [dropTrailingWs, hdt]; simp [hc, noTwoSpaces]
  | case4 c rest hne ih =>
    intro h
    rw [dropTrailingWs]
    cases hdt : dropTrailingWs rest with
    | nil => exact absurd hdt hne
    | cons y ys =>
      cases rest with
      | nil => simp [dropTrailingWs] at hdt
      | cons b rest2 =>
        have hy : y = b := by
          rcases head_dropTrailingWs b rest2 with h2 | ⟨r, h2⟩
          · exact absurd (hdt ▸ h2 : (y :: ys : List Char) = []) (by simp)
          · rw [hdt] at h2
            exact (List.cons.injEq y ys b r ▸ h2).1
        subst hy
        rw [noTwoSpaces]
        have hfirst : (!(pyIsSpace c && pyIsSpace y)) = true := by
          rw [noTwoSpaces] at h
          simp at h ⊢
          tauto
        have hsecond := ih (noTwoSpaces_tail c _ h)
        rw [hdt] at hsecond
        simp at hfirst ⊢
        exact ⟨hfirst, hsecond⟩

theorem dropTrailingWs_of_last (l : List Char) :
    (∀ x, l.getLast? = some x → pyIsSpace x = false) → dropTrailingWs l = l := by
  induction l with
  | nil => intro _; rfl
  | cons c rest ih =>
    intro h
    cases rest with
    | nil =>
      have hc := h c (by simp)
      simp [dropTrailingWs, hc]
    | cons b rest2 =>
      have hrest : dropTrailingWs (b :: rest2) = b :: rest2 :=
        ih (fun x hx => h x (by rw [List.getLast?_cons_cons]; exact hx))
      rw [dropTrailingWs, hrest]

theorem noTwoSpaces_dropWhile (l : List Char) :
    noTwoSpaces l = true → noTwoSpaces (l.dropWhile pyIsSpace) = true := by
  induction l with
  | nil => intro _; rfl
  | cons a rest ih =>
    intro h
    by_cases ha : pyIsSpace a
    · rw [List.dropWhile_cons_of_pos ha]
      exact ih (noTwoSpaces_tail a rest h)
    · rwa [List.dropWhile_cons_of_neg ha]

theorem head?_dropWhile (l : List Char) (x : Char) :
    (l.dropWhile pyIsSpace).head? = some x → pyIsSpace x = false := by
  induction l with
  | nil => simp
  | cons a rest ih =>
    intro h
    by_cases ha : pyIsSpace a
    · rw [List.dropWhile_cons_of_pos ha] at h
      exact ih h
    · rw [List.dropWhile_cons_of_neg ha] at h
      simp at h
      rw [← h]
      exact Bool.not_eq_true _ ▸ ha

theorem head?_dropTrailingWs (m : List Char) (x : Char) :
    (dropTrailingWs m).head? = some x → m.head? = some x := by
  cases m with
  | nil => simp [dropTrailingWs]
  | cons c rest =>
    intro h
    rcases head_dropTrailingWs c rest with h2 | ⟨r, h2⟩
    · rw [h2] at h; simp at h
    · rw [h2] at h
      simp at h
      simp [h]

theorem pyStrip_head (l : List Char) (x : Char) :
    (pyStrip l).head? = some x → pyIsSpace x = false := by
  intro h
  exact head?_dropWhile l x (head?_dropTrailingWs _ x h)

theorem pyStrip_last (l : List Char) (x : Char) :
    (pyStrip l).getLast? = some x → pyIsSpace x = false :=
  getLast?_dropTrailingWs _ x

theorem mem_pyStrip (l : List Char) (c : Char) : c ∈ pyStrip l → c ∈ l := by
  intro h
  exact (List.dropWhile_sublist pyIsSpace).mem (mem_dropTrailingWs _ c h)

theorem length_pyStrip (l : List Char) : (pyStrip l).length ≤ l.length :=
  le_trans (length_dropTrailingWs _) (List.Sublist.length_le (List.dropWhile_sublist _))

theorem noTwoSpaces_pyStrip (l : List Char) :
    noTwoSpaces l = true → noTwoSpaces (pyStrip l) = true := fun h =>
  noTwoSpaces_dropTrailingWs _ (noTwoSpaces_dropWhile l h)

theorem pyStrip_fixed (l : List Char)
    (hhead : ∀ x, l.head? = some x → pyIsSpace x = false)
    (hlast : ∀ x, l.getLast? = some x → pyIsSpace x = false) :
    pyStrip l = l := by
  unfold pyStrip
  have hdw : l.dropWhile pyIsSpace = l := by
    cases l with
    | nil => rfl
    | cons c rest =>
      have hc := hhead c (by simp)
      rw [List.dropWhile_cons_of_neg (by simp [hc])]
  rw [hdw]
  exact dropTrailingWs_of_last l hlast

/-- The whitespace-normalization part of the cleaner is idempotent. -/
theorem wsNorm_idem (m : List Char) :
    pyStrip (collapseWs (pyStrip (collapseWs m))) = pyStrip (collapseWs m) := by
  have hall : ∀ c ∈ pyStrip (collapseWs m), pyIsSpace c = true → c = ' ' :=
    fun c hc hs => allSpace_collapseWs m c (mem_pyStrip _ c hc) hs
  have hnt : noTwoSpaces (pyStrip (collapseWs m)) = true :=
    noTwoSpaces_pyStrip _ (noTwoSpaces_collapseWs m)
  rw [collapseWs_fixed _ hall hnt]
  exact pyStrip_fixed _ (pyStrip_head _) (pyStrip_last _)

theorem removeTagsF_id (fuel : Nat) (l : List Char) (h : '<' ∉ l) :
    removeTagsF fuel l = l := by
  induction fuel generalizing l with
  | zero => cases l <;> rfl
  | succ f ih =>
    cases l with
    | nil => rfl
    | cons c rest =>
      have hc : ¬ c = '<' := fun hh => h (by simp [hh])
      simp only [removeTagsF, if_neg hc]
      rw [ih rest (fun hm => h (List.mem_cons_of_mem c hm))]

theorem removeTags_id (l : List Char) (h : '<' ∉ l) : removeTags l = l :=
  removeTagsF_id l.length l h

theorem replaceAllF_id (fuel : Nat) (p0 : Char) (pr repl l : List Char) (h : p0 ∉ l) :
    replaceAllF fuel (p0 :: pr) repl l = l := by
  induction fuel generalizing l with
  | zero => cases l <;> rfl
  | succ f ih =>
    cases l with
    | nil => rfl
    | cons c rest =>
      have hpre : ¬ ((p0 :: pr).isPrefixOf (c :: rest) = true ∧ (p0 :: pr) ≠ []) := by
        rintro ⟨hp, -⟩
        have hp2 := List.isPrefixOf_iff_prefix.1 hp
        have hp3 : p0 = c := (List.cons_prefix_cons.1 hp2).1
        exact h (by simp [hp3])
      simp only [replaceAllF, if_neg hpre]
      rw [ih rest (fun hm => h (List.mem_cons_of_mem c hm))]

theorem pyReplace_id (l : List Char) (p0 : Char) (pr repl : List Char) (h : p0 ∉ l) :
    pyReplace l (p0 :: pr) repl = l :=
  replaceAllF_id l.length p0 pr repl l h

theorem cleanHtml_no_markup (t : String) (hne : ¬ t = "")
    (h1 : '<' ∉ t.data) (h2 : '&' ∉ t.data) :
    cleanHtml t = smartTruncate (String.mk (pyStrip (collapseWs t.data))) 15000 := by
  unfold cleanHtml
  rw [if_neg hne]
  have e1 : removeTags t.data = t.data := removeTags_id _ h1
  have e2 : pyReplace t.data "&nbsp;".data " ".data = t.data := by
    rw [show ("&nbsp;".data) = '&' :: "nbsp;".data from rfl]
    exact pyReplace_id _ _ _ _ h2
  have e3 : pyReplace t.data "&amp;".data "&".data = t.data := by
    rw [show ("&amp;".data) = '&' :: "amp;".data from rfl]
    exact pyReplace_id _ _ _ _ h2
  have e4 : pyReplace t.data "&lt;".data "<".data = t.data := by
    rw [show ("&lt;".data) = '&' :: "lt;".data from rfl]
    exact pyReplace_id _ _ _ _ h2
  have e5 : pyReplace t.data "&gt;".data ">".data = t.data := by
    rw [show ("&gt;".data) = '&' :: "gt;".data from rfl]
    exact pyReplace_id _ _ _ _ h2
  simp only [e1, e2, e3, e4, e5]

theorem cleanHtml_norm (t : String) (hne : ¬ t = "")
    (h1 : '<' ∉ t.data) (h2 : '&' ∉ t.data) (h3 : t.length ≤ 15000) :
    cleanHtml t = String.mk (pyStrip (collapseWs t.data)) := by
  rw [cleanHtml_no_markup t hne h1 h2]
  apply (truncate_contract _ 15000).1
  show (pyStrip (collapseWs t.data)).length ≤ 15000
  calc (pyStrip (collapseWs t.data)).length
      ≤ (collapseWs t.data).length := length_pyStrip _
    _ ≤ t.data.length := length_collapseWs _
    _ ≤ 15000 := h3

/-- C4 (amended): the cleaner is idempotent on every text of length at
most the per-field limit that contains neither `"<"` nor `"&"`.  (For
texts with encoded entities the decode step can expose new tag-shaped
spans, and the second pass removes them — see the counterexample.) -/
theorem clean_html_idem (t : String)
    (h1 : '<' ∉ t.data) (h2 : '&' ∉ t.data) (h3 : t.length ≤ 15000) :
    cleanHtml (cleanHtml t) = cleanHtml t := by
  by_cases ht : t = ""
  · subst ht
    have h0 : cleanHtml "" = "" := by unfold cleanHtml; rw [if_pos rfl]
    rw [h0, h0]
  · have hA : cleanHtml t = String.mk (pyStrip (collapseWs t.data)) :=
      cleanHtml_norm t ht h1 h2 h3
    by_cases hnil : pyStrip (collapseWs t.data) = []
    · rw [hA, hnil]
      have hmk : String.mk ([] : List Char) = "" := rfl
      rw [hmk]
      unfold cleanHtml
      rw [if_pos rfl]
    · have hne2 : ¬ String.mk (pyStrip (collapseWs t.data)) = "" := by
        intro hh
        apply hnil
        have : (String.mk (pyStrip (collapseWs t.data))).data = ("" : String).data := by
          rw [hh]
        simpa using this
      have h1' : '<' ∉ (String.mk (pyStrip (collapseWs t.data))).data := by
        intro hm
        rcases mem_collapseWs t.data '<' (mem_pyStrip _ '<' hm) with hmm | hmm
        · exact h1 hmm
        · exact absurd hmm (by decide)
      have h2' : '&' ∉ (String.mk (pyStrip (collapseWs t.data))).data := by
        intro hm
        rcases mem_collapseWs t.data '&' (mem_pyStrip _ '&' hm) with hmm | hmm
        · exact h2 hmm
        · exact absurd hmm (by decide)
      have h3' : (String.mk (pyStrip (collapseWs t.data))).length ≤ 15000 := by
        show (pyStrip (collapseWs t.data)).length ≤ 15000
        calc (pyStrip (collapseWs t.data)).length
            ≤ (collapseWs t.data).length := length_pyStrip _
          _ ≤ t.data.length := length_collapseWs _
          _ ≤ 15000 := h3
      have hB : cleanHtml (String.mk (pyStrip (collapseWs t.data))) =
          String.mk (pyStrip (collapseWs (pyStrip (collapseWs t.data)))) :=
        cleanHtml_norm _ hne2 h1' h2' h3'
      rw [hA, hB, wsNorm_idem]

/-- Counterexample for C4 as stated: decoding `&lt;`/`&gt;` exposes a
tag-shaped span, which a second pass of the cleaner removes, so `clean`
is not idempotent. -/
theorem clean_html_not_idempotent :
    cleanHtml "&lt;x&gt;" = "<x>" ∧
    cleanHtml (cleanHtml "&lt;x&gt;") = "" ∧
    cleanHtml (cleanHtml "&lt;x&gt;") ≠ cleanHtml "&lt;x&gt;" := by
  decide

/-- Witness for C4"s amended claim at a concrete whitespace-laden input
free of markup characters. -/
theorem clean_html_idem_witness :
    cleanHtml (cleanHtml "hello  world ") = cleanHtml "hello  world " :=
  clean_html_idem "hello  world " (by decide) (by decide) (by decide)

theorem tryGen_all_fail (gen : Nat → Except String String)
    (h : ∀ n, ∃ e, gen n = Except.error e) :
    ∀ remaining attempt lastErr, ∃ le2,
      tryGen gen remaining attempt lastErr = (none, le2, remaining) := by
  intro remaining
  induction remaining with
  | zero => intro attempt lastErr; exact ⟨lastErr, rfl⟩
  | succ r ih =>
    intro attempt lastErr
    obtain ⟨e, he⟩ := h attempt
    obtain ⟨le2, hle⟩ := ih (attempt + 1) (some e)
    refine ⟨le2, ?_⟩
    rw [tryGen, he]
    simp only [hle]

theorem tryGen_first_ok (gen : Nat → Except String String) (s : String)
    (h : gen 1 = Except.ok s) (r : Nat) :
    tryGen gen (r + 1) 1 none = (some s, none, 1) := by
  rw [tryGen, h]

/-- C1: if one work item generation fails on every attempt (and the
items before it generate successfully), the run makes exactly
`maxRetries = 5` generation calls for that item — never a 6th —, raises
the fatal error exactly once (the run result is that single error,
not a report), and the items after the failing one are never processed:
the run outcome, including its total generation-call count, is the
same for every choice of remaining items. -/
theorem retry_fatal_abort (gen : String → Nat → Except String String)
    (fmt : String → Except String String)
    (lb : Option Nat → List WorkItem) (ho : Option Nat → List HistEvent)
    (pre rest : List WorkItem) (bad : WorkItem)
    (hpre : ∀ it ∈ pre, ∃ s, gen (ctxOf lb ho it) 1 = Except.ok s)
    (hbad : ∀ n, ∃ e, gen (ctxOf lb ho bad) n = Except.error e) :
    ∃ msg,
      runBlocks gen fmt lb ho (pre ++ bad :: rest) =
        (Except.error msg, pre.length + maxRetries) ∧
      ∀ rest2, runBlocks gen fmt lb ho (pre ++ bad :: rest2) =
        (Except.error msg, pre.length + maxRetries) := by
  induction pre with
  | nil =>
    obtain ⟨le2, hle⟩ := tryGen_all_fail _ hbad maxRetries 1 none
    refine ⟨fatalMsg bad le2, ?_, fun rest2 => ?_⟩
    · show runBlocks gen fmt lb ho (bad :: rest) = _
      rw [runBlocks]
      simp only [hle]
      simp
    · show runBlocks gen fmt lb ho (bad :: rest2) = _
      rw [runBlocks]
      simp only [hle]
      simp
  | cons it pre' ih =>
    obtain ⟨s, hs⟩ := hpre it (by simp)
    have hpre' : ∀ x ∈ pre', ∃ s, gen (ctxOf lb ho x) 1 = Except.ok s :=
      fun x hx => hpre x (by simp [hx])
    obtain ⟨msg, hmsg, hinv⟩ := ih hpre'
    have ht : tryGen (gen (ctxOf lb ho it)) maxRetries 1 none = (some s, none, 1) :=
      tryGen_first_ok _ s hs 4
    refine ⟨msg, ?_, fun rest2 => ?_⟩
    · show runBlocks gen fmt lb ho (it :: (pre' ++ bad :: rest)) = _
      rw [runBlocks]
      simp only [ht, hmsg]
      simp only [List.length_cons, Prod.mk.injEq]
      refine ⟨trivial, by omega⟩
    · show runBlocks gen fmt lb ho (it :: (pre' ++ bad :: rest2)) = _
      rw [runBlocks]
      simp only [ht, hinv rest2]
      simp only [List.length_cons, Prod.mk.injEq]
      refine ⟨trivial, by omega⟩

/-- Witness for C1 at a concrete single-item run whose generation always
fails: the run aborts with the fatal message after exactly 5 calls. -/
theorem retry_fatal_abort_witness :
    runBlocks genFailW fmtOkW lbW hoW [badItemW] =
      (Except.error (fatalMsg badItemW (some "boom")), maxRetries) := by
  obtain ⟨msg, h1, -⟩ :=
    retry_fatal_abort genFailW fmtOkW lbW hoW [] [] badItemW (by simp)
      (fun n => ⟨"boom", rfl⟩)
  have h4 : runBlocks genFailW fmtOkW lbW hoW [badItemW] = (Except.error msg, maxRetries) := by
    simpa using h1
  have h6 : (runBlocks genFailW fmtOkW lbW hoW [badItemW]).1 =
      Except.error (fatalMsg badItemW (some "boom")) := by rfl
  rw [h4] at h6
  rw [h4]
  injection h6 with h7
  rw [h7]

/-- C8 (amended): when every item generation succeeds (on the first
attempt), a formatting error never aborts the run — the result is still
a report block list —, each item contributing its `processSummary`
blocks: ONE block when formatting succeeds but TWO blocks (the
minimally-formatted fallback carrying the raw summary, plus a visible
error block containing the failure glyph) when formatting raises. -/
theorem formatting_fallback (gen : String → Nat → Except String String)
    (fmt : String → Except String String)
    (lb : Option Nat → List WorkItem) (ho : Option Nat → List HistEvent)
    (sumOf : WorkItem → String) (items : List WorkItem)
    (hgen : ∀ it ∈ items, gen (ctxOf lb ho it) 1 = Except.ok (sumOf it)) :
    runBlocks gen fmt lb ho items =
      (Except.ok (items.flatMap (fun it => processSummary fmt it (sumOf it))),
        items.length) ∧
    (∀ w s, (processSummary fmt w s).length =
      (match fmt (detectTruncation s).2 with
       | Except.ok _ => 1
       | Except.error _ => 2)) ∧
    (∀ w s e, fmt (detectTruncation s).2 = Except.error e →
      processSummary fmt w s =
        [basicBlock w (detectTruncation s).2, errorBlock w e] ∧
      (∃ u v, (basicBlock w (detectTruncation s).2).data =
        u ++ (detectTruncation s).2.data ++ v) ∧
      (∃ u v, (errorBlock w e).data = u ++ failureMarker.data ++ v)) := by
  refine ⟨?_, ?_, ?_⟩
  · induction items with
    | nil => simp [runBlocks]
    | cons it rest ih =>
      have hs := hgen it (by simp)
      have ht : tryGen (gen (ctxOf lb ho it)) maxRetries 1 none =
          (some (sumOf it), none, 1) := tryGen_first_ok _ _ hs 4
      have hrest := ih (fun x hx => hgen x (by simp [hx]))
      rw [runBlocks]
      simp only [ht, hrest, List.flatMap_cons, List.length_cons, Prod.mk.injEq]
      refine ⟨trivial, by omega⟩
  · intro w s
    cases h : fmt (detectTruncation s).2 <;> simp [processSummary, h]
  · intro w s e hf
    refine ⟨by simp [processSummary, hf], ?_, ?_⟩
    · refine ⟨("\n" ++ eqRope ++ "\n" ++ "Work Item " ++ idStr w ++ ": " ++
        titleOf w ++ "\n" ++ eqRope ++ "\n\n").data, ("\n" : String).data, ?_⟩
      simp [basicBlock, strData_append, List.append_assoc]
    · have hsplit : ("❌ **ERROR FORMATTING WORK ITEM SUMMARY**\n\n" : String).data =
        failureMarker.data ++ (" **ERROR FORMATTING WORK ITEM SUMMARY**\n\n" : String).data := by
        decide
      refine ⟨("\n" ++ dashRope ++ "\n" ++ "Work Item " ++ idStr w ++ ": " ++
        titleOf w ++ "\n" ++ dashRope ++ "\n\n").data,
        ((" **ERROR FORMATTING WORK ITEM SUMMARY**\n\n" ++ "Formatting failed: " ++
          e ++ "\n") : String).data, ?_⟩
      simp [errorBlock, strData_append, hsplit, List.append_assoc, failureMarker]

/-- Counterexample for C8 as stated ("exactly one block per processed
item"): a run over ONE item whose formatting raises produces TWO blocks
in the report list. -/
theorem formatting_two_blocks :
    (match (runBlocks genOkW fmtFailW lbW hoW [itemFmtW]).1 with
     | Except.ok bs => bs.length
     | Except.error _ => 0) = 2 := by rfl

/-- Witness for C8"s amended claim at the concrete one-item run. -/
theorem formatting_fallback_witness :
    runBlocks genOkW fmtFailW lbW hoW [itemFmtW] =
      (Except.ok ([itemFmtW].flatMap (fun it => processSummary fmtFailW it "sum")), 1) := by
  have h := (formatting_fallback genOkW fmtFailW lbW hoW (fun _ => "sum") [itemFmtW]
    (by intro it hit; rfl)).1
  simpa using h

theorem strAppend_assoc (a b c : String) : (a ++ b) ++ c = a ++ (b ++ c) := by
  cases a with
  | mk la =>
    cases b with
    | mk lb =>
      cases c with
      | mk lc =>
        show String.mk ((la ++ lb) ++ lc) = String.mk (la ++ (lb ++ lc))
        rw [List.append_assoc]

/-- C6: the report header success count is exactly the number of
blocks containing no failure glyph — the header embeds
`{successCount}/{total}` — and in the 2-item scenario where the second
block carries the glyph, the count is 1 and the header reads `1/2`. -/
theorem success_rate_header :
    (∀ (summaries : List String) (total : Nat) (d m : String),
      successCount summaries =
        (summaries.filter (fun s => !(isSubstr failureMarker.data s.data))).length ∧
      ∃ u v, buildFinalReport d total m summaries =
        u ++ ("**Success Rate**: " ++ toString (successCount summaries) ++ "/" ++
          toString total) ++ v) ∧
    successCount [blockOkW, blockFailW] = 1 ∧
    (∃ u v, buildFinalReport "2024-01-01 at 00:00:00" 2 "0.1" [blockOkW, blockFailW] =
      u ++ "**Success Rate**: 1/2" ++ v) := by
  have hmain : ∀ (summaries : List String) (total : Nat) (d m : String),
      ∃ u v, buildFinalReport d total m summaries =
        u ++ ("**Success Rate**: " ++ toString (successCount summaries) ++ "/" ++
          toString total) ++ v := by
    intro summaries total d m
    refine ⟨"# ADO Work Items Summary Report\n*Generated on " ++ d ++
      "*\n\n**Items Processed**: " ++ toString total ++ "  \n",
      "  \n" ++ "**Total Time**: " ++ m ++ " minutes\n\n---\n\n" ++
        String.join summaries ++ "\n\n---\n\n*End of Report*\n", ?_⟩
    simp only [buildFinalReport, strAppend_assoc]
  refine ⟨fun summaries total d m => ⟨rfl, hmain summaries total d m⟩, by decide, ?_⟩
  obtain ⟨u, v, hu⟩ := hmain [blockOkW, blockFailW] 2 "2024-01-01 at 00:00:00" "0.1"
  refine ⟨u, v, ?_⟩
  rw [hu]
  have hcnt : ("**Success Rate**: " ++ toString (successCount [blockOkW, blockFailW]) ++
      "/" ++ toString (2 : Nat)) = "**Success Rate**: 1/2" := by decide
  rw [hcnt]

theorem getWorkItemsGo_all_fail (fetch : Nat → Option WorkItem)
    (linkedOf : Nat → List WorkItem) (ids : List Nat)
    (h : ∀ i ∈ ids, fetch i = none) :
    ∀ seen, getWorkItemsGo fetch linkedOf ids seen = ([], seen) := by
  induction ids with
  | nil => intro seen; rfl
  | cons wid rest ih =>
    intro seen
    have hw : fetch wid = none := h wid (by simp)
    rw [getWorkItemsGo, hw]
    exact ih (fun i hi => h i (by simp [hi])) seen

/-- C7 (amended): the placeholder substitution is all-or-nothing.  When
EVERY requested id fails to fetch, the core processes every id through a
placeholder item carrying only the id and the synthesized title; but the
substitution happens only when the client returned no items at all — if
the client returns any item, the core uses that list as is, so an
individually failing id yields NO placeholder (see the counterexample). -/
theorem placeholder_all_or_nothing (fetch : Nat → Option WorkItem)
    (linkedOf : Nat → List WorkItem) (ids : List Nat) :
    ((∀ i ∈ ids, fetch i = none) →
      fetchWorkItems fetch linkedOf ids = placeholderItems ids) ∧
    (getWorkItems fetch linkedOf ids ≠ [] →
      fetchWorkItems fetch linkedOf ids = getWorkItems fetch linkedOf ids) := by
  constructor
  · intro h
    have hempty : getWorkItems fetch linkedOf ids = [] := by
      unfold getWorkItems
      rw [getWorkItemsGo_all_fail fetch linkedOf ids h ids]
    unfold fetchWorkItems
    rw [if_pos hempty]
  · intro h
    unfold fetchWorkItems
    rw [if_neg h]

/-- Counterexample for C7 as stated: with requested ids `[1, 2]` where
id 2 fails to fetch, the returned list has a single item and NO element
carries id 2 — the failing id is silently dropped, not replaced by a
placeholder. -/
theorem missing_id_gets_no_placeholder :
    (fetchWorkItems fetchW linkedOfW [1, 2]).length = 1 ∧
    (fetchWorkItems fetchW linkedOfW [1, 2]).all (fun w => w.id ≠ some 2) = true := by
  decide

/-- Witness for C7"s amended claim: when both requested ids fail, both
are replaced by placeholder items. -/
theorem placeholder_all_or_nothing_witness :
    fetchWorkItems (fun _ => none) linkedOfW [1, 2] = placeholderItems [1, 2] :=
  (placeholder_all_or_nothing (fun _ => none) linkedOfW [1, 2]).1 (by simp)

theorem joinSections_append_single (xs : List String) (y : String) (h : xs ≠ []) :
    joinSections (xs ++ [y]) = joinSections xs ++ "\n\n" ++ y := by
  induction xs with
  | nil => exact absurd rfl h
  | cons a rest ih =>
    cases rest with
    | nil => simp [joinSections]
    | cons b rest2 =>
      have ih2 := ih (by simp)
      show joinSections (a :: (b :: rest2 ++ [y])) = _
      rw [show (a :: (b :: rest2 ++ [y])) = a :: ((b :: rest2) ++ [y]) from rfl]
      rw [joinSections, joinSections]
      · rw [ih2]
        simp [strAppend_assoc]
      · simp
      · simp

theorem pyTail_length_le (n : Nat) (l : List α) : (pyTail n l).length ≤ n := by
  simp [pyTail]
  omega

theorem pyTail_eq_nil_iff (n : Nat) (hn : 0 < n) (l : List α) :
    pyTail n l = [] ↔ l = [] := by
  constructor
  · intro h
    have hlen : (pyTail n l).length = 0 := by rw [h]; rfl
    simp [pyTail] at hlen
    exact List.length_eq_zero.1 (by omega)
  · intro h
    subst h
    simp [pyTail]

/-- C9: for a non-empty history, the assembled context"s sections are
those of the empty-history call plus the Timeline section (so the
section is present exactly when the history is non-empty); the timeline
shows at most 5 lines; every shown line is the rendered state change of
an event among the last 15 history entries that carries a
`System.State` delta; and the section renders the no-state-change
sentinel when no such event exists. -/
theorem timeline_spec (history : List HistEvent) (hne : history ≠ []) :
    (∀ (p : WorkItem) (linked : List WorkItem),
      joinSections (sectionsList p linked history) =
        joinSections (sectionsList p linked []) ++ "\n\n" ++
          buildTimelineContext history) ∧
    (timelineLines history).length ≤ 5 ∧
    (∀ line ∈ timelineLines history, ∃ e, e ∈ pyTail 15 history ∧
      (histField e "System.State").isSome ∧ stateLineOf e = some line) ∧
    (timelineLines history = [] →
      buildTimelineContext history = "TIMELINE: No significant state changes") ∧
    (timelineLines history ≠ [] →
      buildTimelineContext history = "TIMELINE:\n" ++ joinNl (timelineLines history)) := by
  have hie : history.isEmpty = false := by
    cases history with
    | nil => exact absurd rfl hne
    | cons a b => rfl
  have hkeiff : ((pyTail 15 history).filterMap stateLineOf = []) ↔
      timelineLines history = [] := by
    unfold timelineLines
    constructor
    · intro h; rw [h]; rfl
    · intro h
      exact (pyTail_eq_nil_iff 5 (by omega) _).1 h
  refine ⟨?_, pyTail_length_le 5 _, ?_, ?_, ?_⟩
  · intro p linked
    have hxsne : sectionsList p linked [] ≠ [] := by simp [sectionsList]
    have h1 : sectionsList p linked history =
        sectionsList p linked [] ++ [buildTimelineContext history] := by
      unfold sectionsList
      rw [hie]
      simp [List.append_assoc]
    rw [h1, joinSections_append_single _ _ hxsne]
  · intro line hline
    have hke : line ∈ (pyTail 15 history).filterMap stateLineOf := by
      unfold timelineLines pyTail at hline
      exact List.mem_of_mem_drop hline
    obtain ⟨e, he, heq⟩ := List.mem_filterMap.1 hke
    refine ⟨e, he, ?_, heq⟩
    unfold stateLineOf at heq
    cases hsf : histField e "System.State" with
    | none => rw [hsf] at heq; simp at heq
    | some ch => simp [hsf]
  · intro h0
    have hke := hkeiff.2 h0
    unfold buildTimelineContext
    rw [hie]
    simp only [Bool.false_eq_true, if_false]
    rw [hke]
    rfl
  · intro h0
    have hke : (pyTail 15 history).filterMap stateLineOf ≠ [] :=
      fun hh => h0 (by unfold timelineLines; rw [hh]; rfl)
    unfold buildTimelineContext
    rw [hie]
    simp only [Bool.false_eq_true, if_false]
    have hkeie : ((pyTail 15 history).filterMap stateLineOf).isEmpty = false := by
      cases hc : (pyTail 15 history).filterMap stateLineOf with
      | nil => exact absurd hc hke
      | cons x xs => rfl
    rw [hkeie]
    rfl

/-- Witness for C9 at a concrete one-event history. -/
theorem timeline_spec_witness :
    joinSections (sectionsList pW [] [histEvW]) =
      joinSections (sectionsList pW [] []) ++ "\n\n" ++ buildTimelineContext [histEvW] ∧
    (timelineLines [histEvW]).length ≤ 5 :=
  ⟨(timeline_spec [histEvW] (by simp)).1 pW [],
   (timeline_spec [histEvW] (by simp)).2.1⟩

theorem cleanStep_init (line0 : String)
    (h : isRecognizedHeader (pyStripStr line0) = false) :
    cleanStep ([], none) line0 = ([], none) := by
  unfold cleanStep
  by_cases h1 : pyStripStr line0 = ""
  · rw [if_pos h1]
  · rw [if_neg h1]
    by_cases h2 : isInstructionArtifact (pyStripStr line0) = true
    · rw [if_pos h2]
    · rw [if_neg h2]
      by_cases h3 : isBoldLine (pyStripStr line0) = true
      · rw [if_pos h3]
        have h4 : isValidSection (sectionNameOf (pyStripStr line0)) = false := by
          unfold isRecognizedHeader at h
          rw [h3] at h
          simpa using h
        simp only [h4, Bool.false_eq_true, if_false]
      · rw [if_neg h3]

/-- C10: every content line before the first recognized bold section
header contributes nothing to the formatter state, and consequently a
summary with no recognized bold section line at all formats to the
empty body — its raw content is lost. -/
theorem pre_header_lines_dropped :
    (∀ (pre rest : List String),
      (∀ l ∈ pre, isRecognizedHeader (pyStripStr l) = false) →
      (pre ++ rest).foldl cleanStep ([], none) = rest.foldl cleanStep ([], none)) ∧
    (∀ summary : String,
      (∀ l ∈ pySplitLines summary, isRecognizedHeader (pyStripStr l) = false) →
      cleanSummaryContent summary = "") := by
  have hmain : ∀ (pre rest : List String),
      (∀ l ∈ pre, isRecognizedHeader (pyStripStr l) = false) →
      (pre ++ rest).foldl cleanStep ([], none) = rest.foldl cleanStep ([], none) := by
    intro pre
    induction pre with
    | nil => intro rest _; rfl
    | cons l pre' ih =>
      intro rest h
      have hl := cleanStep_init l (h l (by simp))
      show ((l :: (pre' ++ rest)).foldl cleanStep ([], none)) = _
      rw [List.foldl_cons, hl]
      exact ih rest (fun x hx => h x (by simp [hx]))
  refine ⟨hmain, ?_⟩
  intro summary h
  unfold cleanSummaryContent
  have h0 : (pySplitLines summary).foldl cleanStep ([], none) = ([], none) := by
    have := hmain (pySplitLines summary) [] h
    simpa using this
  rw [h0]
  rfl

/-- Witness for C10: a summary with no bold section line at all formats
to the empty string. -/
theorem pre_header_lines_dropped_witness :
    cleanSummaryContent "Just a plain line\nAnother plain line" = "" :=
  pre_header_lines_dropped.2 "Just a plain line\nAnother plain line" (by decide)
